import Mathlib

/-!
Shallow embedding of the process-discovery subsystem of the
`antigravity-panel` repository, together with proofs settling the frozen
claims about it.

Command lines, tool output and file contents are modelled as `List Char`.
Each JavaScript regular expression used by the source is embedded as a
dedicated scanning function with the regex's leftmost-match, greedy
semantics (the character classes involved are pairwise disjoint at every
quantifier boundary, so greedy maximal-run matching is exact).  The `\s`
class is modelled by its ASCII fragment, which is the fragment exercised
by every string the subsystem parses.  Asynchronous shell execution,
`JSON.parse` and HTTP probing are modelled as environment-provided
oracles; a thrown exception is an `Except.error` / `Option.none` value.
-/

namespace AGPanel

/-! ### Character classes -/

/-- ASCII fragment of the JavaScript `\s` class. -/
def isSpaceJs (c : Char) : Bool :=
  c = ' ' || c = '\t' || c = '\n' || c = '\r' ||
  c = Char.ofNat 11 || c = Char.ofNat 12

/-- The class `[=\s]` used between an argument marker and its value. -/
def isSepEq (c : Char) : Bool :=
  c = '=' || isSpaceJs c

/-- The class `[a-zA-Z0-9\-_.]` of token characters. -/
def isTokenChar (c : Char) : Bool :=
  c.isAlpha || c.isDigit || c = '-' || c = '_' || c = '.'

/-- The class `["']` of quote characters. -/
def isQuoteC (c : Char) : Bool :=
  c = '"' || c = Char.ofNat 39

/-- The class `[0-9.]` of IPv4-address characters. -/
def isIpChar (c : Char) : Bool :=
  c.isDigit || c = '.'

/-- The class `[\d.]` of address characters in port-listing regexes. -/
def isAddrChar (c : Char) : Bool :=
  c.isDigit || c = '.'

/-- The class `[\da-f:]` (inputs are lowercased before matching). -/
def isHexColon (c : Char) : Bool :=
  c.isDigit || ('a' ≤ c && c ≤ 'f') || c = ':'

/-! ### List utilities (greedy runs, substring search, trimming) -/

/-- Greedy maximal run: `takeW p l` is the longest Boolean-`p` prefix. -/
def takeW (p : Char → Bool) : List Char → List Char
  | [] => []
  | c :: t => if p c then c :: takeW p t else []

/-- Remainder after the greedy maximal run. -/
def dropW (p : Char → Bool) : List Char → List Char
  | [] => []
  | c :: t => if p c then dropW p t else c :: t

/-- Strip a literal from the head of the input (`none` on mismatch). -/
def dropLit : List Char → List Char → Option (List Char)
  | [], l => some l
  | _ :: _, [] => none
  | p :: ps, c :: cs => if c = p then dropLit ps cs else none

/-- Does the needle occur literally at the head of the haystack? -/
def matchesAt : List Char → List Char → Bool
  | [], _ => true
  | _ :: _, [] => false
  | a :: as, b :: bs => a = b && matchesAt as bs

/-- JavaScript `hay.includes(needle)`. -/
def includesL (needle : List Char) : List Char → Bool
  | [] => needle.isEmpty
  | c :: t => matchesAt needle (c :: t) || includesL needle t

/-- Leftmost match: try `f` at every start position, left to right. -/
def scanFirst (f : List Char → Option α) : List Char → Option α
  | [] => f []
  | c :: t =>
    match f (c :: t) with
    | some v => some v
    | none => scanFirst f t

/-- `regex.test`-style scan: does `f` hold at some start position? -/
def scanAny (f : List Char → Bool) : List Char → Bool
  | [] => f []
  | c :: t => f (c :: t) || scanAny f t

/-- JavaScript `String.prototype.trim` (left half). -/
def jsTrimLeft (l : List Char) : List Char := dropW isSpaceJs l

/-- JavaScript `String.prototype.trim` (right half). -/
def jsTrimRight (l : List Char) : List Char :=
  (dropW isSpaceJs l.reverse).reverse

/-- JavaScript `String.prototype.trim`. -/
def jsTrim (l : List Char) : List Char := jsTrimRight (jsTrimLeft l)

/-- JavaScript `s.split("\n")`. -/
def splitNl : List Char → List (List Char)
  | [] => [[]]
  | c :: t =>
    if c = '\n' then [] :: splitNl t
    else
      match splitNl t with
      | h :: r => (c :: h) :: r
      | [] => [[c]]

/-- JavaScript `s.split(/\r?\n/)`: separators are `"\r\n"` or `"\n"`. -/
def splitCrLf : List Char → List (List Char)
  | [] => [[]]
  | '\r' :: '\n' :: t =>
    [] :: splitCrLf t
  | c :: t =>
    if c = '\n' then [] :: splitCrLf t
    else
      match splitCrLf t with
      | h :: r => (c :: h) :: r
      | [] => [[c]]

/-- Fields of a trimmed string under `split(/\s+/)` (whitespace runs). -/
def wordsWs : List Char → List Char → List (List Char)
  | [], cur => if cur.isEmpty then [] else [cur.reverse]
  | c :: t, cur =>
    if isSpaceJs c then
      if cur.isEmpty then wordsWs t [] else cur.reverse :: wordsWs t []
    else wordsWs t (c :: cur)

/-- `parseInt(digits, 10)` on a digit string, as a natural number. -/
def digitsToNat (l : List Char) : Nat :=
  l.foldl (fun n c => 10 * n + (c.toNat - 48)) 0

/-! ### Embedded argument-marker regexes -/

def portLit : List Char := "--extension_server_port".toList
def tokLit : List Char := "--csrf_token".toList
def wsLit : List Char := "--workspace_id".toList
def appDataLit : List Char := "--app_data_dir".toList

/-- Drop one optional leading quote (the `["']?` group). -/
def dropQuote : List Char → List Char
  | [] => []
  | c :: t => if isQuoteC c then t else c :: t

/-- Match `lit[=\s]+(\d+)` at the head of the input; capture the digits. -/
def numMarkAt (lit : List Char) (l : List Char) : Option (List Char) :=
  match dropLit lit l with
  | none => none
  | some r =>
    if (takeW isSepEq r).isEmpty then none
    else
      let d := takeW Char.isDigit (dropW isSepEq r)
      if d.isEmpty then none else some d

/-- Match `lit[=\s]+(?:["']?)([a-zA-Z0-9\-_.]+)` at the head; capture the
token characters.  The trailing `(?:["']?)` group always succeeds and
captures nothing, so it is not represented. -/
def tokMarkAt (lit : List Char) (l : List Char) : Option (List Char) :=
  match dropLit lit l with
  | none => none
  | some r =>
    if (takeW isSepEq r).isEmpty then none
    else
      let t := takeW isTokenChar (dropQuote (dropW isSepEq r))
      if t.isEmpty then none else some t

/-- First match of `--extension_server_port[=\s]+(\d+)`. -/
def findPort (cmd : List Char) : Option (List Char) :=
  scanFirst (numMarkAt portLit) cmd

/-- First match of `--csrf_token[=\s]+(?:["']?)([a-zA-Z0-9\-_.]+)(?:["']?)`. -/
def findToken (cmd : List Char) : Option (List Char) :=
  scanFirst (tokMarkAt tokLit) cmd

/-- First match of `--workspace_id[=\s]+(?:["']?)([a-zA-Z0-9\-_.]+)(?:["']?)`. -/
def findWs (cmd : List Char) : Option (List Char) :=
  scanFirst (tokMarkAt wsLit) cmd

/-- One position of `/app_data_dir\s+["']?antigravity/i`; the input is the
lowercased command line. -/
def strictAt (l : List Char) : Bool :=
  match dropLit "app_data_dir".toList l with
  | none => false
  | some r =>
    if (takeW isSpaceJs r).isEmpty then false
    else matchesAt "antigravity".toList (dropQuote (dropW isSpaceJs r))

/-- The STRICT CHECK shared by `UnixStrategy.parseProcessInfo` and
`WindowsStrategy.mapProcessItems`:
`cmd.includes("--app_data_dir") && /app_data_dir\s+["']?antigravity/i.test(cmd)`. -/
def strictCheck (cmd : List Char) : Bool :=
  includesL appDataLit cmd && scanAny strictAt (cmd.map Char.toLower)

/-! ### Process records and signature extraction -/

/-- `ProcessInfo` as produced by the platform strategies. -/
structure ProcessInfo where
  pid : Nat
  ppid : Nat
  extensionPort : Nat
  csrfToken : List Char
  workspaceId : Option (List Char)
deriving DecidableEq

/-- The per-line extraction body of `UnixStrategy.parseProcessInfo`
(the part guarded by `cmd.includes("--extension_server_port")`). -/
def unixExtract (pid ppid : Nat) (cmd : List Char) : Option ProcessInfo :=
  if includesL portLit cmd then
    match findToken cmd with
    | some tok =>
      if strictCheck cmd then
        some ⟨pid, ppid,
          (match findPort cmd with
           | some d => digitsToNat d
           | none => 0),
          tok, findWs cmd⟩
      else none
    | none => none
  else none

/-- The anchored regex `^(\d+)\s+(\d+)\s+(.+)$` applied to a (trimmed)
`ps` output line: pid, ppid and the command-line remainder. -/
def parsePsLine (l : List Char) : Option (Nat × Nat × List Char) :=
  let d1 := takeW Char.isDigit l
  let r1 := dropW Char.isDigit l
  let s1 := takeW isSpaceJs r1
  let r2 := dropW isSpaceJs r1
  let d2 := takeW Char.isDigit r2
  let r3 := dropW Char.isDigit r2
  let s2 := takeW isSpaceJs r3
  let rest := dropW isSpaceJs r3
  if d1.isEmpty || s1.isEmpty || d2.isEmpty || s2.isEmpty || rest.isEmpty then
    none
  else if rest.any (fun c => c == '\n') then none
  else some (digitsToNat d1, digitsToNat d2, rest)

/-- `UnixStrategy.parseProcessInfo`. -/
def unixParseProcessInfo (stdout : List Char) : Option (List ProcessInfo) :=
  let results := (splitNl (jsTrim stdout)).filterMap fun line =>
    match parsePsLine (jsTrim line) with
    | some (pid, ppid, cmd) => unixExtract pid ppid cmd
    | none => none
  if results.isEmpty then none else some results

/-- A parsed Windows process item (`WinProcessItem`). -/
structure WinProcessItem where
  commandLine : Option (List Char)
  processId : Option Nat
  parentProcessId : Nat
deriving DecidableEq

/-- The per-item body of `WindowsStrategy.mapProcessItems`. -/
def winExtractItem (item : WinProcessItem) : Option ProcessInfo :=
  let cmd := item.commandLine.getD []
  match item.processId with
  | none => none
  | some pid =>
    if pid = 0 then none
    else
      match findToken cmd with
      | some tok =>
        if strictCheck cmd then
          some ⟨pid, item.parentProcessId,
            (match findPort cmd with
             | some d => digitsToNat d
             | none => 0),
            tok, findWs cmd⟩
        else none
      | none => none

/-- `WindowsStrategy.mapProcessItems`. -/
def mapProcessItems (items : List WinProcessItem) : Option (List ProcessInfo) :=
  let results := items.filterMap winExtractItem
  if results.isEmpty then none else some results

/-! ### Listening-port parsers -/

/-- `ports.push` guarded by `!ports.includes(port)`. -/
def pushIf (ports : List Nat) (p : Nat) : List Nat :=
  if ports.contains p then ports else ports ++ [p]

/-- First-occurrence deduplication with a seen-accumulator, JavaScript
`[...new Set(ports)]`: keep each value the first time it appears. -/
def jsDedupAux (seen : List Nat) : List Nat → List Nat
  | [] => []
  | x :: t =>
    if seen.contains x then jsDedupAux seen t
    else x :: jsDedupAux (x :: seen) t

/-- First-occurrence deduplication, JavaScript `[...new Set(ports)]`. -/
def jsDedup (l : List Nat) : List Nat := jsDedupAux [] l

/-- One loop iteration of `WindowsStrategy.parseListeningPorts`: accept
the line if its trimmed form is a pure number in `(0, 65535]`. -/
def winPortStep (acc : List Nat) (line : List Char) : List Nat :=
  let t := jsTrim line
  if !t.isEmpty && t.all Char.isDigit then
    let p := digitsToNat t
    if 0 < p && p ≤ 65535 then acc ++ [p] else acc
  else acc

/-- `WindowsStrategy.parseListeningPorts`: keep pure-number lines in
`(0, 65535]`, deduplicate, sort ascending. -/
def winParseListeningPorts (stdout : List Char) : List Nat :=
  List.insertionSort (· ≤ ·)
    (jsDedup ((splitCrLf (jsTrim stdout)).foldl winPortStep []))

/-- The address group `(?:\*|[\d.]+|\[[\da-f:]+\])` (nonempty bracket). -/
def addrPlus : List Char → Option (List Char)
  | [] => none
  | c :: t =>
    if c = '*' then some t
    else if isAddrChar c then some (dropW isAddrChar (c :: t))
    else if c = '[' then
      match dropLit ['['] (c :: t) with
      | some r =>
        let inner := takeW isHexColon r
        if inner.isEmpty then none
        else
          match dropW isHexColon r with
          | ']' :: r2 => some r2
          | _ => none
      | none => none
    else none

/-- The address group `(?:\*|[\d.]+|\[[\da-f:]*\])` (bracket may be empty). -/
def addrStar : List Char → Option (List Char)
  | [] => none
  | c :: t =>
    if c = '*' then some t
    else if isAddrChar c then some (dropW isAddrChar (c :: t))
    else if c = '[' then
      match dropW isHexColon t with
      | ']' :: r2 => some r2
      | _ => none
    else none

/-- One position of the lsof regex
`(?:TCP|UDP)\s+(?:\*|[\d.]+|\[[\da-f:]+\]):(\d+)\s+\(LISTEN\)/i`
on a lowercased line; capture the port digits. -/
def lsofMarkAt (l : List Char) : Option (List Char) :=
  let afterProto :=
    match dropLit "tcp".toList l with
    | some r => some r
    | none => dropLit "udp".toList l
  match afterProto with
  | none => none
  | some r =>
    if (takeW isSpaceJs r).isEmpty then none
    else
      match addrPlus (dropW isSpaceJs r) with
      | none => none
      | some r2 =>
        match r2 with
        | ':' :: r3 =>
          let d := takeW Char.isDigit r3
          if d.isEmpty then none
          else
            let r4 := dropW Char.isDigit r3
            if (takeW isSpaceJs r4).isEmpty then none
            else
              match dropLit "(listen)".toList (dropW isSpaceJs r4) with
              | some _ => some d
              | none => none
        | _ => none

/-- One position of the ss regex
`LISTEN\s+\d+\s+\d+\s+(?:\*|[\d.]+|\[[\da-f:]*\]):(\d+)/gi` on the
lowercased output; capture the digits and return the rest for `/g`. -/
def ssMarkAt (l : List Char) : Option (List Char × List Char) :=
  match dropLit "listen".toList l with
  | none => none
  | some r =>
    if (takeW isSpaceJs r).isEmpty then none
    else
      let r1 := dropW isSpaceJs r
      let d1 := takeW Char.isDigit r1
      if d1.isEmpty then none
      else
        let r2 := dropW Char.isDigit r1
        if (takeW isSpaceJs r2).isEmpty then none
        else
          let r3 := dropW isSpaceJs r2
          let d2 := takeW Char.isDigit r3
          if d2.isEmpty then none
          else
            let r4 := dropW Char.isDigit r3
            if (takeW isSpaceJs r4).isEmpty then none
            else
              match addrStar (dropW isSpaceJs r4) with
              | none => none
              | some r5 =>
                match r5 with
                | ':' :: r6 =>
                  let d := takeW Char.isDigit r6
                  if d.isEmpty then none
                  else some (d, dropW Char.isDigit r6)
                | _ => none

/-- All matches of a global regex, emulating the `exec` loop: on a match
the search resumes after the matched text, otherwise it advances one
position.  Every embedded matcher consumes at least one character per
match, so the fuel `2 * length + 1` is never exhausted. -/
def scanAllAux (f : List Char → Option (List Char × List Char)) :
    Nat → List Char → List (List Char)
  | 0, _ => []
  | fuel + 1, l =>
    match f l with
    | some (cap, rest) => cap :: scanAllAux f fuel rest
    | none =>
      match l with
      | [] => []
      | _ :: t => scanAllAux f fuel t

/-- All matches of a global regex over the input. -/
def scanAll (f : List Char → Option (List Char × List Char))
    (l : List Char) : List (List Char) :=
  scanAllAux f (2 * l.length + 1) l

/-- The `"darwin" | "linux"` platform union of `UnixStrategy`. -/
inductive UnixPlatform
  | darwin
  | linux
deriving DecidableEq

/-- The per-line lsof branch of `UnixStrategy.parseListeningPorts`:
pid-column filtering then first match of the lsof regex. -/
def lsofLineScan (pidStr : List Char) (acc : List Nat) (line : List Char) :
    List Nat :=
  let parts := wordsWs (jsTrim line) []
  if 2 ≤ parts.length ∧ parts.get? 1 = some pidStr then
    match scanFirst lsofMarkAt (line.map Char.toLower) with
    | some cap => pushIf acc (digitsToNat cap)
    | none => acc
  else acc

/-- `UnixStrategy.parseListeningPorts`. -/
def unixParseListeningPorts (plat : UnixPlatform) (stdout : List Char)
    (pid : Nat) : List Nat :=
  let pidStr := Nat.toDigits 10 pid
  let lines := splitNl stdout
  match plat with
  | .darwin =>
    List.insertionSort (· ≤ ·) (lines.foldl (lsofLineScan pidStr) [])
  | .linux =>
    let ssPorts := (scanAll ssMarkAt (stdout.map Char.toLower)).foldl
      (fun acc cap => pushIf acc (digitsToNat cap)) []
    let ports :=
      if ssPorts.isEmpty then lines.foldl (lsofLineScan pidStr) []
      else ssPorts
    List.insertionSort (· ≤ ·) ports

/-! ### WSL detection (`src/shared/utils/wsl.ts`) -/

/-- `isWsl`.  The platform string and the result of reading
`/proc/version` are passed explicitly; `none` models a read that threw. -/
def isWslM (platform : List Char) (versionFile : Option (List Char)) : Bool :=
  if platform ≠ "linux".toList then false
  else
    match versionFile with
    | none => false
    | some v =>
      let ver := v.map Char.toLower
      includesL "microsoft".toList ver || includesL "wsl".toList ver

/-- One position of `/^nameserver\s+([0-9.]+)/m`; capture the address. -/
def nsMarkAt (l : List Char) : Option (List Char) :=
  match dropLit "nameserver".toList l with
  | none => none
  | some r =>
    if (takeW isSpaceJs r).isEmpty then none
    else
      let v := takeW isIpChar (dropW isSpaceJs r)
      if v.isEmpty then none else some v

/-- Multiline scan for `nsMarkAt`: `^` with the `m` flag matches at the
start of the string and right after each `'\n'`. -/
def scanNs : Bool → List Char → Option (List Char)
  | atStart, [] => if atStart then nsMarkAt [] else none
  | atStart, c :: t =>
    if atStart then
      match nsMarkAt (c :: t) with
      | some v => some v
      | none => scanNs (c = '\n') t
    else scanNs (c = '\n') t

/-- `getWslHostIp`.  The content of `/etc/resolv.conf` is passed
explicitly; `none` models a read that threw. -/
def getWslHostIpM (resolvConf : Option (List Char)) : Option (List Char) :=
  match resolvConf with
  | none => none
  | some content => scanNs true content

/-! ### Port-tool availability cache and `getPortListCommand` -/

/-- The Unix port-listing tools probed by `detectAvailablePortCommand`. -/
inductive PortTool
  | lsof
  | ss
  | netstat
deriving DecidableEq

/-- The mutable fields of `UnixStrategy` relevant to tool detection. -/
structure UnixStrategyState where
  platform : UnixPlatform
  availablePortCommand : Option PortTool
  portCommandChecked : Bool
deriving DecidableEq

/-- The probe loop of `detectAvailablePortCommand`: try each tool with
`which`, memoize the first hit.  Returns the new state and the list of
tools actually probed. -/
def toolLoop (which : PortTool → Bool) (st : UnixStrategyState) :
    List PortTool → UnixStrategyState × List PortTool
  | [] => (st, [])
  | t :: rest =>
    if which t then ({ st with availablePortCommand := some t }, [t])
    else
      let (st', tr) := toolLoop which st rest
      (st', t :: tr)

/-- `UnixStrategy.detectAvailablePortCommand`.  `which t = true` models
`which <tool>` exiting successfully. -/
def detectAvailablePortCommand (which : PortTool → Bool)
    (st : UnixStrategyState) : UnixStrategyState × List PortTool :=
  if st.portCommandChecked || st.platform = .darwin then (st, [])
  else
    toolLoop which { st with portCommandChecked := true }
      [.lsof, .ss, .netstat]

/-- The lsof command string used by `getPortListCommand`. -/
def lsofPortCmd (pidS : List Char) : List Char :=
  "lsof -nP -a -iTCP -sTCP:LISTEN -p ".toList ++ pidS ++
  " 2>/dev/null | grep -E \"^\\S+\\s+".toList ++ pidS ++ "\\s\"".toList

/-- `getPortListCommand` from `detection_utils.ts`. -/
def getPortListCommandStr (pid : Nat) (platform : List Char)
    (unixAvailableCmd : Option PortTool) : List Char :=
  let pidS := Nat.toDigits 10 pid
  if platform = "win32".toList then
    "chcp 65001 >nul && netstat -ano | findstr \"".toList ++ pidS ++
    "\" | findstr \"LISTENING\"".toList
  else if platform = "darwin".toList then lsofPortCmd pidS
  else
    match unixAvailableCmd with
    | some .lsof => lsofPortCmd pidS
    | some .ss =>
      "ss -tlnp 2>/dev/null | grep \"pid=".toList ++ pidS ++ ",\"".toList
    | some .netstat =>
      "netstat -tulpn 2>/dev/null | grep ".toList ++ pidS
    | none =>
      "ss -tlnp 2>/dev/null | grep \"pid=".toList ++ pidS ++
      "\" || ".toList ++ lsofPortCmd pidS

/-- String form of a `UnixPlatform`, as passed to `getPortListCommandStr`. -/
def platformStr : UnixPlatform → List Char
  | .darwin => "darwin".toList
  | .linux => "linux".toList

/-- `UnixStrategy.getPortListCommand`. -/
def unixGetPortListCommand (st : UnixStrategyState) (pid : Nat) : List Char :=
  getPortListCommandStr pid (platformStr st.platform) st.availablePortCommand

/-! ### Ambient discovery -/

/-- A Windows process entry as produced by `JSON.parse` of the
PowerShell output inside `AmbientDiscovery.parseOutput`. -/
structure WinJsonItem where
  commandLine : Option (List Char)
  processId : Nat
  parentProcessId : Nat
deriving DecidableEq

/-- The final result `LanguageServerInfo` (the fields populated by
ambient discovery). -/
structure LanguageServerInfo where
  port : Nat
  csrfToken : List Char
deriving DecidableEq

/-- Environment oracles for `AmbientDiscovery`: the platform, shell
execution (an `Except.error` models a thrown/timed-out `exec`),
`JSON.parse` (a `none` models a throw), the gateway verifier, and the
WSL helpers. -/
structure AmbEnv where
  platform : List Char
  signatureOutput : Except Unit (List Char)
  jsonParse : List Char → Option (List WinJsonItem)
  portOutput : Nat → Except Unit (List Char)
  verify : List Char → Nat → List Char → Bool
  isWsl : Bool
  wslHostIp : Option (List Char)

/-- The loopback address probed first for every port. -/
def loopback : List Char := "127.0.0.1".toList

/-- `AmbientDiscovery.extractDetails`. -/
def extractDetails (cmd : List Char) (pid ppid : Nat) : Option ProcessInfo :=
  if !includesL tokLit cmd || !includesL portLit cmd then none
  else
    match findToken cmd with
    | some tok =>
      some ⟨pid, ppid,
        (match findPort cmd with
         | some d => digitsToNat d
         | none => 0),
        tok, findWs cmd⟩
    | none => none

/-- `AmbientDiscovery.parseOutput`. -/
def ambParseOutput (env : AmbEnv) (raw : List Char) : List ProcessInfo :=
  if env.platform = "win32".toList then
    match env.jsonParse (jsTrim raw) with
    | some entries =>
      entries.filterMap fun e =>
        extractDetails (e.commandLine.getD []) e.processId e.parentProcessId
    | none => []
  else
    (splitNl (jsTrim raw)).filterMap fun row =>
      match parsePsLine (jsTrim row) with
      | some (pid, ppid, cmd) => extractDetails cmd pid ppid
      | none => none

/-- `AmbientDiscovery.locateBySignature`: a failed shell execution is
caught and becomes the empty candidate list. -/
def locateBySignature (env : AmbEnv) : List ProcessInfo :=
  match env.signatureOutput with
  | .error _ => []
  | .ok out => ambParseOutput env out

/-- One position of the ambient Windows port regex
`(?:127\.0\.0\.1|0\.0\.0\.0|\[::1?\]):(\d+)\s+\S+\s+LISTENING/gi` on the
lowercased output. -/
def ambWinPortAt (l : List Char) : Option (List Char × List Char) :=
  let afterAddr :=
    match dropLit "127.0.0.1".toList l with
    | some r => some r
    | none =>
      match dropLit "0.0.0.0".toList l with
      | some r => some r
      | none =>
        match dropLit "[::]".toList l with
        | some r => some r
        | none => dropLit "[::1]".toList l
  match afterAddr with
  | none => none
  | some r =>
    match r with
    | ':' :: r1 =>
      let d := takeW Char.isDigit r1
      if d.isEmpty then none
      else
        let r2 := dropW Char.isDigit r1
        if (takeW isSpaceJs r2).isEmpty then none
        else
          let r3 := dropW isSpaceJs r2
          let w := takeW (fun c => !isSpaceJs c) r3
          if w.isEmpty then none
          else
            let r4 := dropW (fun c => !isSpaceJs c) r3
            if (takeW isSpaceJs r4).isEmpty then none
            else
              match dropLit "listening".toList (dropW isSpaceJs r4) with
              | some r5 => some (d, r5)
              | none => none
    | _ => none

/-- One position of the ambient Unix port regex
`(?:TCP|UDP|LISTEN)\s+(?:\*|[\d.]+|\[[\da-f:]+\]):(\d+)/gi` on the
lowercased output. -/
def ambUnixPortAt (l : List Char) : Option (List Char × List Char) :=
  let afterKw :=
    match dropLit "tcp".toList l with
    | some r => some r
    | none =>
      match dropLit "udp".toList l with
      | some r => some r
      | none => dropLit "listen".toList l
  match afterKw with
  | none => none
  | some r =>
    if (takeW isSpaceJs r).isEmpty then none
    else
      match addrPlus (dropW isSpaceJs r) with
      | none => none
      | some r2 =>
        match r2 with
        | ':' :: r3 =>
          let d := takeW Char.isDigit r3
          if d.isEmpty then none else some (d, dropW Char.isDigit r3)
        | _ => none

/-- `AmbientDiscovery.lookupPorts`: a failed shell execution is caught
and becomes the empty port list; matches with `p > 0` are collected
without duplicates, in match order. -/
def lookupPorts (env : AmbEnv) (pid : Nat) : List Nat :=
  match env.portOutput pid with
  | .error _ => []
  | .ok out =>
    let caps :=
      if env.platform = "win32".toList then
        scanAll ambWinPortAt (out.map Char.toLower)
      else scanAll ambUnixPortAt (out.map Char.toLower)
    caps.foldl
      (fun store cap =>
        let p := digitsToNat cap
        if 0 < p then pushIf store p else store) []

/-- The per-port probe loop of `AmbientDiscovery.probeAndEstablish`,
instrumented with the ordered list of `(host, port)` probes issued. -/
def probeLoop (env : AmbEnv) (tok : List Char) :
    List Nat → Option LanguageServerInfo × List (List Char × Nat)
  | [] => (none, [])
  | p :: rest =>
    if env.verify loopback p tok then (some ⟨p, tok⟩, [(loopback, p)])
    else
      if env.isWsl then
        match env.wslHostIp with
        | some ip =>
          if ip ≠ loopback then
            if env.verify ip p tok then
              (some ⟨p, tok⟩, [(loopback, p), (ip, p)])
            else
              ((probeLoop env tok rest).1,
                (loopback, p) :: (ip, p) :: (probeLoop env tok rest).2)
          else
            ((probeLoop env tok rest).1,
              (loopback, p) :: (probeLoop env tok rest).2)
        | none =>
          ((probeLoop env tok rest).1,
            (loopback, p) :: (probeLoop env tok rest).2)
      else
        ((probeLoop env tok rest).1,
          (loopback, p) :: (probeLoop env tok rest).2)

/-- `AmbientDiscovery.probeAndEstablish`, returning the result together
with the ordered probe trace. -/
def probeAndEstablish (env : AmbEnv) (meta : ProcessInfo) :
    Option LanguageServerInfo × List (List Char × Nat) :=
  let ports := lookupPorts env meta.pid
  if ports.isEmpty then (none, [])
  else probeLoop env meta.csrfToken ports

/-- The candidate loop of `AmbientDiscovery.executeDiscovery`. -/
def tryCandidates (env : AmbEnv) : List ProcessInfo →
    Option LanguageServerInfo
  | [] => none
  | c :: rest =>
    match (probeAndEstablish env c).1 with
    | some r => some r
    | none => tryCandidates env rest

/-- `AmbientDiscovery.executeDiscovery`. -/
def executeDiscovery (env : AmbEnv) : Option LanguageServerInfo :=
  let candidates := locateBySignature env
  if candidates.isEmpty then none
  else tryCandidates env candidates

/-! ### Template command lines for the universal extraction claims -/

/-- Optionally wrap a token value in double quotes. -/
def quoteWrap (b : Bool) (t : List Char) : List Char :=
  if b then '"' :: (t ++ ['"']) else t

/-- A command line with a well-formed port marker carrying `d`, a token
marker carrying `tokPart`, and an app-data-dir marker in the
whitespace-separated form accepted by the strict check. -/
def markerCmd (d tokPart : List Char) : List Char :=
  "--extension_server_port=".toList ++
    (d ++ (" --csrf_token=".toList ++
      (tokPart ++ " --app_data_dir antigravity".toList)))

/-! ### Concrete environments used by the witnesses -/

/-- Bridge address used by the concrete WSL environments. -/
def bridgeIp : List Char := "172.29.96.1".toList

/-- A WSL environment whose gateway accepts only the bridge address:
the loopback probe fails and the bridge probe succeeds. -/
def envBridge : AmbEnv where
  platform := "linux".toList
  signatureOutput := .ok "9 1 /x --extension_server_port=7 --csrf_token=t".toList
  jsonParse := fun _ => none
  portOutput := fun _ => .ok "tcp *:7".toList
  verify := fun h _ _ => h = bridgeIp
  isWsl := true
  wslHostIp := some bridgeIp

/-- A non-WSL environment whose gateway accepts loopback. -/
def envLoop : AmbEnv where
  platform := "linux".toList
  signatureOutput := .ok "9 1 /x --extension_server_port=7 --csrf_token=t".toList
  jsonParse := fun _ => none
  portOutput := fun _ => .ok "tcp *:7".toList
  verify := fun h _ _ => h = loopback
  isWsl := false
  wslHostIp := none

/-- An environment in which every shell execution throws. -/
def envFail : AmbEnv where
  platform := "linux".toList
  signatureOutput := .error ()
  jsonParse := fun _ => none
  portOutput := fun _ => .error ()
  verify := fun _ _ _ => false
  isWsl := false
  wslHostIp := none

/-! ## Helper lemmas -/

theorem takeW_append_run {p : Char → Bool} {l r : List Char}
    (hl : ∀ c ∈ l, p c = true)
    (hr : ∀ c, r.head? = some c → p c = false) :
    takeW p (l ++ r) = l := by
  induction l with
  | nil =>
    cases r with
    | nil => rfl
    | cons c t => simp [takeW, hr c rfl]
  | cons c t ih =>
    simp only [List.cons_append, takeW, hl c (by simp)]
    simp only [if_true, List.cons.injEq, true_and]
    exact ih fun x hx => hl x (by simp [hx])

theorem dropW_append_run {p : Char → Bool} {l r : List Char}
    (hl : ∀ c ∈ l, p c = true)
    (hr : ∀ c, r.head? = some c → p c = false) :
    dropW p (l ++ r) = r := by
  induction l with
  | nil =>
    cases r with
    | nil => rfl
    | cons c t => simp [dropW, hr c rfl]
  | cons c t ih =>
    simp only [List.cons_append, dropW, hl c (by simp), if_true]
    exact ih fun x hx => hl x (by simp [hx])

theorem takeW_nil {p : Char → Bool} {r : List Char}
    (hr : ∀ c, r.head? = some c → p c = false) :
    takeW p r = [] := takeW_append_run (l := []) (by simp) hr

theorem dropW_nil {p : Char → Bool} {r : List Char}
    (hr : ∀ c, r.head? = some c → p c = false) :
    dropW p r = r := dropW_append_run (l := []) (by simp) hr

theorem dropLit_append (p r : List Char) : dropLit p (p ++ r) = some r := by
  induction p with
  | nil => rfl
  | cons c t ih => simp [dropLit, ih]

theorem dropLit_cons_ne {c q : Char} {ps cs : List Char} (h : c ≠ q) :
    dropLit (q :: ps) (c :: cs) = none := by
  simp [dropLit, h]

theorem dropLit_sfx {p l r : List Char} (h : dropLit p l = some r) :
    r <:+ l := by
  induction p generalizing l with
  | nil =>
    simp only [dropLit, Option.some.injEq] at h
    exact h ▸ List.suffix_refl r
  | cons c t ih =>
    cases l with
    | nil => simp [dropLit] at h
    | cons x xs =>
      simp only [dropLit] at h
      split at h
      · exact (ih h).trans (List.suffix_cons x xs)
      · exact absurd h (by simp)

theorem matchesAt_append (n r : List Char) : matchesAt n (n ++ r) = true := by
  induction n with
  | nil => rfl
  | cons c t ih => simp [matchesAt, ih]

theorem matchesAt_pre {n l : List Char} (h : matchesAt n l = true) :
    ∃ r, l = n ++ r := by
  induction n generalizing l with
  | nil => exact ⟨l, rfl⟩
  | cons c t ih =>
    cases l with
    | nil => simp [matchesAt] at h
    | cons x xs =>
      simp only [matchesAt, Bool.and_eq_true, decide_eq_true_eq] at h
      obtain ⟨rfl, h2⟩ := h
      obtain ⟨r, rfl⟩ := ih h2
      exact ⟨r, rfl⟩

theorem includesL_head {n l : List Char} (h : matchesAt n l = true) :
    includesL n l = true := by
  cases l with
  | nil =>
    cases n with
    | nil => rfl
    | cons c t => simp [matchesAt] at h
  | cons c t => simp [includesL, h]

theorem includesL_append_left {n r : List Char} (l : List Char)
    (h : includesL n r = true) : includesL n (l ++ r) = true := by
  induction l with
  | nil => simpa using h
  | cons c t ih => simp [includesL, ih]

theorem includesL_ex {n l : List Char} (h : includesL n l = true) :
    ∃ s, s <:+ l ∧ matchesAt n s = true := by
  induction l with
  | nil =>
    refine ⟨[], List.suffix_refl [], ?_⟩
    cases n with
    | nil => rfl
    | cons c t => simp [includesL] at h
  | cons c t ih =>
    simp only [includesL, Bool.or_eq_true] at h
    rcases h with h | h
    · exact ⟨c :: t, List.suffix_refl _, h⟩
    · obtain ⟨s, hs, hm⟩ := ih h
      exact ⟨s, hs.trans (List.suffix_cons c t), hm⟩

theorem includesL_of_sfx {n s l : List Char} (hs : s <:+ l)
    (hm : matchesAt n s = true) : includesL n l = true := by
  obtain ⟨pre, rfl⟩ := hs
  exact includesL_append_left pre (includesL_head hm)

theorem scanFirst_cons_none {α : Type} {f : List Char → Option α}
    {c : Char} {t : List Char} (h : f (c :: t) = none) :
    scanFirst f (c :: t) = scanFirst f t := by
  simp [scanFirst, h]

theorem scanFirst_skip {α : Type} {f : List Char → Option α} {l : List Char}
    (r : List Char) (h : ∀ x ∈ l, ∀ s, f (x :: s) = none) :
    scanFirst f (l ++ r) = scanFirst f r := by
  induction l with
  | nil => rfl
  | cons c t ih =>
    rw [List.cons_append, scanFirst_cons_none (h c (by simp) (t ++ r))]
    exact ih fun x hx s => h x (by simp [hx]) s

theorem scanFirst_of_some {α : Type} {f : List Char → Option α}
    {c : Char} {t : List Char} {v : α} (h : f (c :: t) = some v) :
    scanFirst f (c :: t) = some v := by
  simp [scanFirst, h]

theorem scanFirst_some_ex {α : Type} {f : List Char → Option α}
    {l : List Char} {v : α} (h : scanFirst f l = some v) :
    ∃ s, s <:+ l ∧ f s = some v := by
  induction l with
  | nil => exact ⟨[], List.suffix_refl [], h⟩
  | cons c t ih =>
    simp only [scanFirst] at h
    split at h
    · exact ⟨c :: t, List.suffix_refl _, by rw [‹f (c :: t) = some _›, h]⟩
    · obtain ⟨s, hs, hf⟩ := ih h
      exact ⟨s, hs.trans (List.suffix_cons c t), hf⟩

theorem scanAny_append_left {f : List Char → Bool} {r : List Char}
    (l : List Char) (h : scanAny f r = true) :
    scanAny f (l ++ r) = true := by
  induction l with
  | nil => simpa using h
  | cons c t ih => simp [scanAny, ih]

theorem scanAny_ex {f : List Char → Bool} {l : List Char}
    (h : scanAny f l = true) : ∃ s, s <:+ l ∧ f s = true := by
  induction l with
  | nil => exact ⟨[], List.suffix_refl [], h⟩
  | cons c t ih =>
    simp only [scanAny, Bool.or_eq_true] at h
    rcases h with h | h
    · exact ⟨c :: t, List.suffix_refl _, h⟩
    · obtain ⟨s, hs, hf⟩ := ih h
      exact ⟨s, hs.trans (List.suffix_cons c t), hf⟩

/-! Character-class facts -/

theorem sep_not_digit {c : Char} (h : isSepEq c = true) :
    c.isDigit = false := by
  simp only [isSepEq, isSpaceJs, Bool.or_eq_true, decide_eq_true_eq] at h
  rcases h with rfl | ((((rfl | rfl) | rfl) | rfl) | rfl) | rfl <;> decide

theorem digit_not_sep {c : Char} (h : c.isDigit = true) :
    isSepEq c = false := by
  cases hq : isSepEq c
  · rfl
  · rw [sep_not_digit hq] at h; exact absurd h (by simp)

theorem sep_not_token {c : Char} (h : isSepEq c = true) :
    isTokenChar c = false := by
  simp only [isSepEq, isSpaceJs, Bool.or_eq_true, decide_eq_true_eq] at h
  rcases h with rfl | ((((rfl | rfl) | rfl) | rfl) | rfl) | rfl <;> decide

theorem token_not_sep {c : Char} (h : isTokenChar c = true) :
    isSepEq c = false := by
  cases hq : isSepEq c
  · rfl
  · rw [sep_not_token hq] at h; exact absurd h (by simp)

theorem quote_not_token {c : Char} (h : isQuoteC c = true) :
    isTokenChar c = false := by
  simp only [isQuoteC, Bool.or_eq_true, decide_eq_true_eq] at h
  rcases h with rfl | rfl <;> decide

theorem token_not_quote {c : Char} (h : isTokenChar c = true) :
    isQuoteC c = false := by
  cases hq : isQuoteC c
  · rfl
  · rw [quote_not_token hq] at h; exact absurd h (by simp)

theorem digit_ne_dash {c : Char} (h : c.isDigit = true) : c ≠ '-' := by
  intro hc; subst hc; exact absurd h (by decide)

theorem digit_ne_nl {c : Char} (h : c.isDigit = true) : c ≠ '\n' := by
  intro hc; subst hc; exact absurd h (by decide)

theorem token_ne_nl {c : Char} (h : isTokenChar c = true) : c ≠ '\n' := by
  intro hc; subst hc; exact absurd h (by decide)

theorem space_not_ipchar {c : Char} (h : isSpaceJs c = true) :
    isIpChar c = false := by
  simp only [isSpaceJs, Bool.or_eq_true, decide_eq_true_eq] at h
  rcases h with ((((rfl | rfl) | rfl) | rfl) | rfl) | rfl <;> decide

theorem ipchar_not_space {c : Char} (h : isIpChar c = true) :
    isSpaceJs c = false := by
  cases hq : isSpaceJs c
  · rfl
  · rw [space_not_ipchar hq] at h; exact absurd h (by simp)

/-! Marker matchers on well-shaped inputs -/

theorem numMarkAt_eq (lit : List Char) {c0 : Char} {d' rest : List Char}
    (hdd : ∀ c ∈ c0 :: d', c.isDigit = true)
    (hr : ∀ c, rest.head? = some c → c.isDigit = false) :
    numMarkAt lit (lit ++ ('=' :: ((c0 :: d') ++ rest))) = some (c0 :: d') := by
  have h0 : c0.isDigit = true := hdd c0 (by simp)
  have he : isSepEq '=' = true := by decide
  have hdig : takeW Char.isDigit (d' ++ rest) = d' :=
    takeW_append_run (fun c hc => hdd c (by simp [hc])) hr
  simp [numMarkAt, dropLit_append, takeW, dropW, he, digit_not_sep h0, h0,
    hdig]

theorem tokMarkAt_eq_plain (lit : List Char) {t0 : Char} {t' rest : List Char}
    (htt : ∀ c ∈ t0 :: t', isTokenChar c = true)
    (hr : ∀ c, rest.head? = some c → isTokenChar c = false) :
    tokMarkAt lit (lit ++ ('=' :: ((t0 :: t') ++ rest))) = some (t0 :: t') := by
  have h0 : isTokenChar t0 = true := htt t0 (by simp)
  have he : isSepEq '=' = true := by decide
  have htok : takeW isTokenChar (t' ++ rest) = t' :=
    takeW_append_run (fun c hc => htt c (by simp [hc])) hr
  simp [tokMarkAt, dropLit_append, takeW, dropW, dropQuote, he,
    token_not_sep h0, token_not_quote h0, h0, htok]

theorem tokMarkAt_eq_quoted (lit : List Char) {t0 : Char} {t' rest : List Char}
    (htt : ∀ c ∈ t0 :: t', isTokenChar c = true) :
    tokMarkAt lit (lit ++ ('=' :: ('"' :: ((t0 :: t') ++ ('"' :: rest))))) =
      some (t0 :: t') := by
  have h0 : isTokenChar t0 = true := htt t0 (by simp)
  have he : isSepEq '=' = true := by decide
  have hqs : isSepEq '"' = false := by decide
  have hqq : isQuoteC '"' = true := by decide
  have htok : takeW isTokenChar (t' ++ ('"' :: rest)) = t' :=
    takeW_append_run (fun c hc => htt c (by simp [hc]))
      (by intro c hc; simp at hc; subst hc; decide)
  simp [tokMarkAt, dropLit_append, takeW, dropW, dropQuote, he, hqs, hqq,
    h0, htok]

theorem tokMark_head_ne {lit0 : Char} {lit' : List Char} {c : Char}
    {s : List Char} (h : c ≠ lit0) :
    tokMarkAt (lit0 :: lit') (c :: s) = none := by
  simp [tokMarkAt, dropLit, h]

theorem tokMark_tokLit_head_ne {c : Char} {s : List Char} (h : c ≠ '-') :
    tokMarkAt tokLit (c :: s) = none := by
  have hdl : dropLit tokLit (c :: s) = none := by
    show dropLit ('-' :: "-csrf_token".toList) (c :: s) = none
    exact dropLit_cons_ne h
  simp [tokMarkAt, hdl]

/-! Template command-line facts -/

theorem skip_port_lit_tok (r : List Char) :
    scanFirst (tokMarkAt tokLit) ("--extension_server_port=".toList ++ r) =
      scanFirst (tokMarkAt tokLit) r := rfl

theorem skip_space_tok (r : List Char) :
    scanFirst (tokMarkAt tokLit) (' ' :: r) =
      scanFirst (tokMarkAt tokLit) r := rfl

theorem findPort_markerCmd {d : List Char} (tokPart : List Char)
    (hd : d ≠ []) (hdd : ∀ c ∈ d, c.isDigit = true) :
    findPort (markerCmd d tokPart) = some d := by
  obtain ⟨c0, d', rfl⟩ := List.exists_cons_of_ne_nil hd
  exact scanFirst_of_some (numMarkAt_eq portLit hdd
    (by intro c hc; simp at hc; subst hc; decide))

theorem findToken_markerCmd {d t : List Char} (b : Bool)
    (hd : d ≠ []) (hdd : ∀ c ∈ d, c.isDigit = true)
    (ht : t ≠ []) (htt : ∀ c ∈ t, isTokenChar c = true) :
    findToken (markerCmd d (quoteWrap b t)) = some t := by
  obtain ⟨c0, d', rfl⟩ := List.exists_cons_of_ne_nil hd
  show scanFirst (tokMarkAt tokLit)
    ("--extension_server_port=".toList ++ ((c0 :: d') ++
      (" --csrf_token=".toList ++
        (quoteWrap b t ++ " --app_data_dir antigravity".toList)))) = some t
  rw [skip_port_lit_tok]
  rw [scanFirst_skip _ (fun x hx s =>
    tokMark_tokLit_head_ne (digit_ne_dash (hdd x hx)))]
  rw [show (" --csrf_token=".toList ++
      (quoteWrap b t ++ " --app_data_dir antigravity".toList)) =
    ' ' :: ("--csrf_token=".toList ++
      (quoteWrap b t ++ " --app_data_dir antigravity".toList)) from rfl]
  rw [skip_space_tok]
  obtain ⟨t0, t', rfl⟩ := List.exists_cons_of_ne_nil ht
  cases b with
  | false =>
    show scanFirst (tokMarkAt tokLit)
      ("--csrf_token=".toList ++
        ((t0 :: t') ++ " --app_data_dir antigravity".toList)) = some (t0 :: t')
    exact scanFirst_of_some (tokMarkAt_eq_plain tokLit htt
      (by intro c hc; simp at hc; subst hc; decide))
  | true =>
    show scanFirst (tokMarkAt tokLit)
      ("--csrf_token=".toList ++
        (('"' :: ((t0 :: t') ++ ['"'])) ++
          " --app_data_dir antigravity".toList)) = some (t0 :: t')
    rw [show ('"' :: ((t0 :: t') ++ ['"'])) ++
        " --app_data_dir antigravity".toList =
      '"' :: ((t0 :: t') ++
        ('"' :: " --app_data_dir antigravity".toList)) from by
        simp]
    exact scanFirst_of_some (tokMarkAt_eq_quoted tokLit htt)

theorem includesL_port_markerCmd (d tokPart : List Char) :
    includesL portLit (markerCmd d tokPart) = true := by
  exact includesL_head (matchesAt_append portLit _)

theorem strict_markerCmd (d tokPart : List Char) :
    strictCheck (markerCmd d tokPart) = true := by
  have h1 : includesL appDataLit (markerCmd d tokPart) = true := by
    simp only [markerCmd]
    apply includesL_append_left
    apply includesL_append_left
    apply includesL_append_left
    apply includesL_append_left
    decide
  have h2 : scanAny strictAt ((markerCmd d tokPart).map Char.toLower) = true := by
    simp only [markerCmd, List.map_append]
    apply scanAny_append_left
    apply scanAny_append_left
    apply scanAny_append_left
    apply scanAny_append_left
    decide
  simp [strictCheck, h1, h2]

theorem unixExtract_markerCmd {d t : List Char} (b : Bool) (pid ppid : Nat)
    (hd : d ≠ []) (hdd : ∀ c ∈ d, c.isDigit = true)
    (ht : t ≠ []) (htt : ∀ c ∈ t, isTokenChar c = true) :
    unixExtract pid ppid (markerCmd d (quoteWrap b t)) =
      some ⟨pid, ppid, digitsToNat d, t,
        findWs (markerCmd d (quoteWrap b t))⟩ := by
  simp [unixExtract, includesL_port_markerCmd, strict_markerCmd,
    findPort_markerCmd _ hd hdd, findToken_markerCmd b hd hdd ht htt]

/-! Trimming, splitting and line parsing on the template input -/

theorem dropW_length_le (p : Char → Bool) (l : List Char) :
    (dropW p l).length ≤ l.length := by
  induction l with
  | nil => simp [dropW]
  | cons c t ih =>
    simp only [dropW]
    split
    · exact Nat.le_trans ih (Nat.le_succ _)
    · simp

theorem dropW_sfx (p : Char → Bool) (l : List Char) : dropW p l <:+ l := by
  induction l with
  | nil => exact List.suffix_refl _
  | cons c t ih =>
    simp only [dropW]
    split
    · exact ih.trans (List.suffix_cons c t)
    · exact List.suffix_refl _

theorem dropQuote_sfx (l : List Char) : dropQuote l <:+ l := by
  cases l with
  | nil => exact List.suffix_refl _
  | cons c t =>
    simp only [dropQuote]
    split
    · exact List.suffix_cons c t
    · exact List.suffix_refl _

theorem jsTrimRight_append (l r : List Char) (hr : jsTrimRight r = r)
    (hne : r ≠ []) : jsTrimRight (l ++ r) = l ++ r := by
  have h1 : dropW isSpaceJs r.reverse = r.reverse := by
    have h2 := congrArg List.reverse hr
    simpa [jsTrimRight] using h2
  obtain ⟨c, t, hct⟩ : ∃ c t, r.reverse = c :: t := by
    cases hrev : r.reverse with
    | nil =>
      exact absurd (by simpa using congrArg List.reverse hrev) hne
    | cons c t => exact ⟨c, t, rfl⟩
  have hc : isSpaceJs c = false := by
    by_contra hc
    simp only [Bool.not_eq_false] at hc
    rw [hct] at h1
    simp only [dropW, hc, if_true] at h1
    have h3 := dropW_length_le isSpaceJs t
    rw [h1] at h3
    simp at h3
  have h4 : (c :: t) ++ l.reverse = (l ++ r).reverse := by
    rw [List.reverse_append, hct]
  show (dropW isSpaceJs (l ++ r).reverse).reverse = l ++ r
  rw [← h4]
  rw [show (c :: t) ++ l.reverse = c :: (t ++ l.reverse) from rfl]
  rw [show dropW isSpaceJs (c :: (t ++ l.reverse)) = c :: (t ++ l.reverse)
    from by simp [dropW, hc]]
  rw [show (c :: (t ++ l.reverse)) = (c :: t) ++ l.reverse from rfl, h4]
  exact List.reverse_reverse _

theorem splitNl_single {l : List Char} (h : ∀ c ∈ l, c ≠ '\n') :
    splitNl l = [l] := by
  induction l with
  | nil => rfl
  | cons c t ih =>
    have hc : ¬(c = '\n') := h c (by simp)
    have ht := ih fun x hx => h x (by simp [hx])
    simp [splitNl, hc, ht]

theorem any_nl_eq_false {l : List Char} (h : ∀ c ∈ l, c ≠ '\n') :
    (l.any fun c => c == '\n') = false := by
  induction l with
  | nil => rfl
  | cons c t ih =>
    have hc : ¬(c = '\n') := h c (by simp)
    have ht := ih fun x hx => h x (by simp [hx])
    simp [List.any_cons, hc, ht]

theorem noNl_quoteWrap {b : Bool} {t : List Char}
    (htt : ∀ c ∈ t, isTokenChar c = true) :
    ∀ c ∈ quoteWrap b t, c ≠ '\n' := by
  intro c hc
  cases b with
  | false => exact token_ne_nl (htt c (by simpa [quoteWrap] using hc))
  | true =>
    simp only [quoteWrap, if_true, List.mem_cons, List.mem_append,
      List.mem_singleton] at hc
    rcases hc with rfl | hc | rfl | hc
    · decide
    · exact token_ne_nl (htt c hc)
    · decide
    · exact absurd hc (List.not_mem_nil c)

theorem noNl_markerCmd {d tp : List Char} (hd : ∀ c ∈ d, c ≠ '\n')
    (htp : ∀ c ∈ tp, c ≠ '\n') : ∀ c ∈ markerCmd d tp, c ≠ '\n' := by
  intro c hc
  simp only [markerCmd, List.mem_append] at hc
  rcases hc with hc | hc | hc | hc | hc
  · exact (by decide : ∀ x ∈ "--extension_server_port=".toList, x ≠ '\n') c hc
  · exact hd c hc
  · exact (by decide : ∀ x ∈ " --csrf_token=".toList, x ≠ '\n') c hc
  · exact htp c hc
  · exact
      (by decide : ∀ x ∈ " --app_data_dir antigravity".toList, x ≠ '\n') c hc

/-! Strict-check failure propagation -/

theorem strictAt_includes {s : List Char} (h : strictAt s = true) :
    includesL "antigravity".toList s = true := by
  unfold strictAt at h
  cases hdl : dropLit "app_data_dir".toList s with
  | none =>
    simp only [hdl] at h
    exact absurd h (by simp)
  | some r =>
    simp only [hdl] at h
    by_cases hsp : (takeW isSpaceJs r).isEmpty
    · simp [hsp] at h
    · simp only [hsp, if_false] at h
      exact includesL_of_sfx
        (((dropQuote_sfx _).trans (dropW_sfx _ _)).trans (dropLit_sfx hdl)) h

theorem strictCheck_false_of_no_anti {cmd : List Char}
    (h : includesL "antigravity".toList (cmd.map Char.toLower) = false) :
    strictCheck cmd = false := by
  have h2 : scanAny strictAt (cmd.map Char.toLower) = false := by
    by_contra hs
    simp only [Bool.not_eq_false] at hs
    obtain ⟨s, hsf, hone⟩ := scanAny_ex hs
    obtain ⟨s2, hs2, hm⟩ := includesL_ex (strictAt_includes hone)
    rw [includesL_of_sfx (hs2.trans hsf) hm] at h
    exact absurd h (by simp)
  simp [strictCheck, h2]

theorem unixExtract_none_of_strict (pid ppid : Nat) {cmd : List Char}
    (h : strictCheck cmd = false) : unixExtract pid ppid cmd = none := by
  cases hfp : includesL portLit cmd <;> cases hft : findToken cmd <;>
    simp [unixExtract, h, hfp, hft]

theorem winExtract_none_of_strict (pidO : Option Nat) (ppid2 : Nat)
    {cmd : List Char} (h : strictCheck cmd = false) :
    winExtractItem ⟨some cmd, pidO, ppid2⟩ = none := by
  rcases pidO with _ | p
  · simp [winExtractItem]
  · by_cases hp : p = 0 <;> cases hft : findToken cmd <;>
      simp [winExtractItem, h, hp, hft]

/-! ## Claim C1 -/

/-- C1, counterexample: a command line carrying well-formed port and
token markers and the spec's `--app_data_dir=<path>` marker whose value
contains "antigravity" yields NO candidate, under both
`UnixStrategy.parseProcessInfo` and `WindowsStrategy.mapProcessItems`,
because the strict-check regex `/app_data_dir\s+["']?antigravity/i`
requires whitespace (not `=`) after `app_data_dir` and the value to
begin with the product name. -/
theorem claim1_counterexample :
    unixParseProcessInfo
      ("123 45 /x/a --extension_server_port=45000 --csrf_token=abc123 --app_data_dir=/home/u/.antigravity".toList) =
      none ∧
    mapProcessItems
      [⟨some "/x/a --extension_server_port=45000 --csrf_token=abc123 --app_data_dir=/home/u/.antigravity".toList,
        some 7, 3⟩] = none :=
  ⟨rfl, rfl⟩

/-- C1, amended: for every digit string `d`, token string `t` (quoted or
unquoted, per `b`), a command line carrying the port marker `=d`, the
token marker `=t` and an app-data-dir marker in the whitespace-separated
form `--app_data_dir antigravity` accepted by the strict check, both
`UnixStrategy.parseProcessInfo` (on a `ps` line with pid 123, ppid 45)
and `WindowsStrategy.mapProcessItems` yield exactly one candidate whose
`extensionPort` and `csrfToken` equal the embedded values. -/
theorem claim1_theorem (d t : List Char) (b : Bool)
    (hd : d ≠ []) (hdd : ∀ c ∈ d, c.isDigit = true)
    (ht : t ≠ []) (htt : ∀ c ∈ t, isTokenChar c = true) :
    (∃ ws, unixParseProcessInfo
        ("123 45 ".toList ++ markerCmd d (quoteWrap b t)) =
      some [⟨123, 45, digitsToNat d, t, ws⟩]) ∧
    (∃ ws, mapProcessItems [⟨some (markerCmd d (quoteWrap b t)), some 7, 3⟩] =
      some [⟨7, 3, digitsToNat d, t, ws⟩]) := by
  have hnlCmd : ∀ c ∈ markerCmd d (quoteWrap b t), c ≠ '\n' :=
    noNl_markerCmd (fun c hc => digit_ne_nl (hdd c hc)) (noNl_quoteWrap htt)
  have hnl : ∀ c ∈ "123 45 ".toList ++ markerCmd d (quoteWrap b t),
      c ≠ '\n' := by
    intro c hc
    rcases List.mem_append.mp hc with hc | hc
    · exact (by decide : ∀ x ∈ "123 45 ".toList, x ≠ '\n') c hc
    · exact hnlCmd c hc
  have htrimR : jsTrimRight ("123 45 ".toList ++ markerCmd d (quoteWrap b t)) =
      "123 45 ".toList ++ markerCmd d (quoteWrap b t) := by
    simp only [markerCmd, ← List.append_assoc]
    exact jsTrimRight_append _ _ (by decide) (by decide)
  have htrim : jsTrim ("123 45 ".toList ++ markerCmd d (quoteWrap b t)) =
      "123 45 ".toList ++ markerCmd d (quoteWrap b t) := by
    show jsTrimRight (jsTrimLeft _) = _
    rw [show jsTrimLeft ("123 45 ".toList ++ markerCmd d (quoteWrap b t)) =
      "123 45 ".toList ++ markerCmd d (quoteWrap b t) from rfl]
    exact htrimR
  have hps : parsePsLine ("123 45 ".toList ++ markerCmd d (quoteWrap b t)) =
      if (markerCmd d (quoteWrap b t)).any (fun c => c == '\n') then none
      else some (123, 45, markerCmd d (quoteWrap b t)) := rfl
  have hps2 : parsePsLine ("123 45 ".toList ++ markerCmd d (quoteWrap b t)) =
      some (123, 45, markerCmd d (quoteWrap b t)) := by
    rw [hps, any_nl_eq_false hnlCmd]
    rfl
  have hext := unixExtract_markerCmd b 123 45 hd hdd ht htt
  constructor
  · refine ⟨findWs (markerCmd d (quoteWrap b t)), ?_⟩
    simp only [unixParseProcessInfo, htrim, splitNl_single hnl,
      List.filterMap_cons, List.filterMap_nil, hps2, hext]
    rfl
  · refine ⟨findWs (markerCmd d (quoteWrap b t)), ?_⟩
    have hwin : winExtractItem ⟨some (markerCmd d (quoteWrap b t)), some 7, 3⟩ =
        some ⟨7, 3, digitsToNat d, t, findWs (markerCmd d (quoteWrap b t))⟩ := by
      simp [winExtractItem, strict_markerCmd, findPort_markerCmd _ hd hdd,
        findToken_markerCmd b hd hdd ht htt]
    simp [mapProcessItems, hwin]

/-- C1, witness: the amended theorem at `d = "45000"`, `t = "abc123"`,
unquoted. -/
theorem claim1_witness :
    (∃ ws, unixParseProcessInfo
        ("123 45 ".toList ++ markerCmd "45000".toList
          (quoteWrap false "abc123".toList)) =
      some [⟨123, 45, digitsToNat "45000".toList, "abc123".toList, ws⟩]) ∧
    (∃ ws, mapProcessItems
        [⟨some (markerCmd "45000".toList (quoteWrap false "abc123".toList)),
          some 7, 3⟩] =
      some [⟨7, 3, digitsToNat "45000".toList, "abc123".toList, ws⟩]) :=
  claim1_theorem "45000".toList "abc123".toList false (by decide) (by decide)
    (by decide) (by decide)

/-! ## Claim C2 -/

/-- C2, counterexample: the strict check is a line-wide regex test, not
a parse of the marker's value.  This command line's `--app_data_dir`
marker value is `/tmp/x`, which does not contain "antigravity" (third
conjunct), yet both `UnixStrategy.parseProcessInfo` and
`WindowsStrategy.mapProcessItems` yield a candidate, because the stray
text `app_data_dir antigravity` elsewhere on the line satisfies
`/app_data_dir\s+["']?antigravity/i`. -/
theorem claim2_counterexample :
    unixParseProcessInfo
      ("1 2 /opt/app/srv --app_data_dir=/tmp/x --extension_server_port=9 --csrf_token=t --note app_data_dir antigravity".toList) =
      some [⟨1, 2, 9, "t".toList, none⟩] ∧
    mapProcessItems
      [⟨some "/opt/app/srv --app_data_dir=/tmp/x --extension_server_port=9 --csrf_token=t --note app_data_dir antigravity".toList,
        some 7, 3⟩] = some [⟨7, 3, 9, "t".toList, none⟩] ∧
    includesL "antigravity".toList "/tmp/x".toList = false :=
  ⟨rfl, rfl, rfl⟩

/-- C2, amended: strict-mode extraction rejects a command line exactly
on the code's line-wide condition, not on the marker's value.  First
part: a line that lacks the `--app_data_dir` substring entirely, or in
which the pattern `app_data_dir` + whitespace + optional quote +
`antigravity` (case-insensitive) matches at no position of the line,
yields no candidate under `UnixStrategy.parseProcessInfo`'s per-line
extraction or `WindowsStrategy.mapProcessItems`, even when well-formed
port and token markers are present.  Second part: in particular, a
line in which "antigravity" occurs nowhere (case-insensitively) — so no
marker value can match — yields no candidate. -/
theorem claim2_theorem (pid ppid ppid2 : Nat) (pidO : Option Nat)
    (cmd : List Char)
    (h : includesL appDataLit cmd = false ∨
         scanAny strictAt (cmd.map Char.toLower) = false) :
    (unixExtract pid ppid cmd = none ∧
     winExtractItem ⟨some cmd, pidO, ppid2⟩ = none ∧
     mapProcessItems [⟨some cmd, pidO, ppid2⟩] = none) ∧
    (∀ cmd2, includesL "antigravity".toList (cmd2.map Char.toLower) = false →
      unixExtract pid ppid cmd2 = none) := by
  have hstrict : strictCheck cmd = false := by
    rcases h with h | h <;> simp [strictCheck, h]
  refine ⟨⟨unixExtract_none_of_strict pid ppid hstrict,
    winExtract_none_of_strict pidO ppid2 hstrict, ?_⟩, ?_⟩
  · simp [mapProcessItems, winExtract_none_of_strict pidO ppid2 hstrict]
  · intro cmd2 h2
    exact unixExtract_none_of_strict pid ppid (strictCheck_false_of_no_anti h2)

/-- C2, witness: a command line with well-formed port and token markers
but no `--app_data_dir` marker yields no strict-mode candidate. -/
theorem claim2_witness :
    unixExtract 1 2
      "--extension_server_port=45000 --csrf_token=abc123".toList = none ∧
    winExtractItem
      ⟨some "--extension_server_port=45000 --csrf_token=abc123".toList,
        some 7, 3⟩ = none ∧
    mapProcessItems
      [⟨some "--extension_server_port=45000 --csrf_token=abc123".toList,
        some 7, 3⟩] = none :=
  (claim2_theorem 1 2 3 (some 7) _ (Or.inl (by decide))).1

/-! ## Claim C10 -/

/-- C10: `AmbientDiscovery.extractDetails` applies no strict
app-data-dir check: whenever the command line contains the substrings
`--csrf_token` and `--extension_server_port` and the token regex
matches (capturing `t`), a candidate with that token is produced — even
with no `--app_data_dir` marker at all, in which case the same command
line yields no candidate under strict-mode extraction
(`UnixStrategy.parseProcessInfo`'s per-line body); and a command line
lacking either substring yields no ambient candidate. -/
theorem claim10_theorem (pid ppid : Nat) (cmd t : List Char)
    (h1 : includesL tokLit cmd = true)
    (h2 : includesL portLit cmd = true)
    (h3 : findToken cmd = some t) :
    (∃ i, extractDetails cmd pid ppid = some i ∧ i.csrfToken = t ∧
      i.pid = pid ∧ i.ppid = ppid) ∧
    (includesL appDataLit cmd = false → unixExtract pid ppid cmd = none) ∧
    (∀ cmd2 p q,
      includesL tokLit cmd2 = false ∨ includesL portLit cmd2 = false →
      extractDetails cmd2 p q = none) := by
  refine ⟨?_, ?_, ?_⟩
  · refine ⟨⟨pid, ppid,
      (match findPort cmd with | some dv => digitsToNat dv | none => 0),
      t, findWs cmd⟩, ?_, rfl, rfl, rfl⟩
    simp [extractDetails, h1, h2, h3]
  · intro h
    exact unixExtract_none_of_strict pid ppid (by simp [strictCheck, h])
  · intro cmd2 p q hq
    rcases hq with hq | hq <;> simp [extractDetails, hq]

/-- C10, witness: the theorem at the concrete command line
`--extension_server_port=5 --csrf_token=tok` (no app-data-dir marker). -/
theorem claim10_witness :
    (∃ i, extractDetails
        "--extension_server_port=5 --csrf_token=tok".toList 5 6 = some i ∧
      i.csrfToken = "tok".toList ∧ i.pid = 5 ∧ i.ppid = 6) ∧
    (includesL appDataLit
        "--extension_server_port=5 --csrf_token=tok".toList = false →
      unixExtract 5 6
        "--extension_server_port=5 --csrf_token=tok".toList = none) ∧
    (∀ cmd2 p q,
      includesL tokLit cmd2 = false ∨ includesL portLit cmd2 = false →
      extractDetails cmd2 p q = none) :=
  claim10_theorem 5 6 "--extension_server_port=5 --csrf_token=tok".toList
    "tok".toList (by decide) (by decide) (by decide)

/-! ## Claims C3 and C4: port-parser lemmas -/

theorem mem_jsDedupAux :
    ∀ (l seen : List Nat) (p : Nat), p ∈ jsDedupAux seen l → p ∈ l := by
  intro l
  induction l with
  | nil => intro seen p h; simp [jsDedupAux] at h
  | cons x t ih =>
    intro seen p h
    rw [jsDedupAux] at h
    split at h
    · exact List.mem_cons_of_mem _ (ih seen p h)
    · rcases List.mem_cons.mp h with rfl | h
      · simp
      · exact List.mem_cons_of_mem _ (ih (x :: seen) p h)

theorem mem_jsDedup {l : List Nat} {p : Nat} (h : p ∈ jsDedup l) : p ∈ l :=
  mem_jsDedupAux l [] p h

theorem jsDedupAux_spec :
    ∀ (l seen : List Nat),
      (∀ p ∈ jsDedupAux seen l, p ∉ seen) ∧ (jsDedupAux seen l).Nodup := by
  intro l
  induction l with
  | nil => intro seen; simp [jsDedupAux]
  | cons x t ih =>
    intro seen
    rw [jsDedupAux]
    split
    · exact ih seen
    · next hx =>
      have hxs : x ∉ seen := by simpa using hx
      constructor
      · intro p hp
        rcases List.mem_cons.mp hp with rfl | hp
        · exact hxs
        · intro hps
          exact (ih (x :: seen)).1 p hp (List.mem_cons_of_mem _ hps)
      · refine List.nodup_cons.mpr ⟨?_, (ih (x :: seen)).2⟩
        intro hmem
        exact (ih (x :: seen)).1 x hmem (by simp)

theorem jsDedup_nodup (l : List Nat) : (jsDedup l).Nodup :=
  (jsDedupAux_spec l []).2

theorem mem_foldl_winPortStep :
    ∀ (lines : List (List Char)) (acc : List Nat) (p : Nat),
      p ∈ lines.foldl winPortStep acc → p ∈ acc ∨ (0 < p ∧ p ≤ 65535) := by
  intro lines
  induction lines with
  | nil => intro acc p h; exact Or.inl h
  | cons l ls ih =>
    intro acc p h
    rw [List.foldl_cons] at h
    rcases ih _ p h with h2 | h2
    · unfold winPortStep at h2
      by_cases hc1 : (!(jsTrim l).isEmpty && (jsTrim l).all Char.isDigit) = true
      · simp only [hc1, if_true] at h2
        by_cases hc2 : (0 < digitsToNat (jsTrim l) ∧
            digitsToNat (jsTrim l) ≤ 65535)
        · simp only [hc2.1, hc2.2, decide_True, Bool.and_self, if_true] at h2
          rcases List.mem_append.mp h2 with h3 | h3
          · exact Or.inl h3
          · simp only [List.mem_singleton] at h3
            exact Or.inr (h3 ▸ hc2)
        · have hc3 : (decide (0 < digitsToNat (jsTrim l)) &&
              decide (digitsToNat (jsTrim l) ≤ 65535)) = false := by
            rcases Decidable.not_and_iff_or_not.mp hc2 with h4 | h4 <;>
              simp [h4]
          simp only [hc3, if_false] at h2
          exact Or.inl h2
      · simp only [hc1, if_false] at h2
        exact Or.inl h2
    · exact Or.inr h2

theorem nodup_pushIf {acc : List Nat} (p : Nat) (h : acc.Nodup) :
    (pushIf acc p).Nodup := by
  unfold pushIf
  split
  · exact h
  · next hc =>
    have hpm : p ∉ acc := by simpa using hc
    refine List.nodup_append.mpr ⟨h, List.nodup_singleton p, ?_⟩
    intro x hx hx2
    simp only [List.mem_singleton] at hx2
    exact hpm (hx2 ▸ hx)

theorem foldl_nodup {β : Type} (step : List Nat → β → List Nat)
    (hstep : ∀ acc x, acc.Nodup → (step acc x).Nodup) :
    ∀ (xs : List β) (acc : List Nat), acc.Nodup → (xs.foldl step acc).Nodup := by
  intro xs
  induction xs with
  | nil => intro acc h; exact h
  | cons x t ih =>
    intro acc h
    rw [List.foldl_cons]
    exact ih _ (hstep acc x h)

theorem nodup_lsofLineScan (pidStr : List Char) (acc : List Nat)
    (line : List Char) (h : acc.Nodup) :
    (lsofLineScan pidStr acc line).Nodup := by
  simp only [lsofLineScan]
  cases hscan : scanFirst lsofMarkAt (line.map Char.toLower) with
  | none => simp only [hscan]; split <;> exact h
  | some cap =>
    simp only [hscan]
    split
    · exact nodup_pushIf _ h
    · exact h

/-! ## Claim C3 -/

/-- C3, counterexample: `UnixStrategy.parseListeningPorts` (darwin
branch; the Linux lsof fallback is identical) accepts the numeric
capture 99999, which lies outside `(0, 65535]` — the Unix parser has no
range check. -/
theorem claim3_counterexample :
    unixParseListeningPorts .darwin "x 42 TCP *:99999 (LISTEN)".toList 42 =
      [99999] ∧ ¬(99999 ≤ 65535) :=
  ⟨rfl, by decide⟩

/-- C3, amended: every port in the list returned by
`WindowsStrategy.parseListeningPorts` lies in `(0, 65535]` (the range
check is present only in the Windows strategy; the Unix strategy accepts
any numeric capture). -/
theorem claim3_theorem (stdout : List Char) (p : Nat)
    (h : p ∈ winParseListeningPorts stdout) : 0 < p ∧ p ≤ 65535 := by
  unfold winParseListeningPorts at h
  have h1 := (List.perm_insertionSort (· ≤ ·) _).mem_iff.mp h
  rcases mem_foldl_winPortStep _ _ _ (mem_jsDedup h1) with h2 | h2
  · exact absurd h2 (List.not_mem_nil p)
  · exact h2

/-- C3, witness: the amended theorem at output `"80\n"`, port 80. -/
theorem claim3_witness : 0 < 80 ∧ 80 ≤ 65535 :=
  claim3_theorem "80\n".toList 80 (by decide)

/-! ## Claim C4 -/

/-- C4: both parseListeningPorts implementations are deterministic
(parsing the same raw output twice yields the same list — definitional
for these pure functions) and canonical: the result is duplicate-free
and sorted ascending, for every raw output, pid and platform. -/
theorem claim4_theorem (plat : UnixPlatform) (stdout : List Char)
    (pid : Nat) :
    (unixParseListeningPorts plat stdout pid =
        unixParseListeningPorts plat stdout pid ∧
      (unixParseListeningPorts plat stdout pid).Nodup ∧
      (unixParseListeningPorts plat stdout pid).Sorted (· ≤ ·)) ∧
    (winParseListeningPorts stdout = winParseListeningPorts stdout ∧
      (winParseListeningPorts stdout).Nodup ∧
      (winParseListeningPorts stdout).Sorted (· ≤ ·)) := by
  refine ⟨⟨rfl, ?_, ?_⟩, ⟨rfl, ?_, ?_⟩⟩
  · unfold unixParseListeningPorts
    cases plat with
    | darwin =>
      exact (List.perm_insertionSort (· ≤ ·) _).nodup_iff.mpr
        (foldl_nodup _ (nodup_lsofLineScan _) _ _ List.nodup_nil)
    | linux =>
      refine (List.perm_insertionSort (· ≤ ·) _).nodup_iff.mpr ?_
      split
      · exact foldl_nodup _ (nodup_lsofLineScan _) _ _ List.nodup_nil
      · exact foldl_nodup _ (fun acc x h => nodup_pushIf _ h) _ _
          List.nodup_nil
  · unfold unixParseListeningPorts
    cases plat with
    | darwin => exact List.sorted_insertionSort _ _
    | linux => exact List.sorted_insertionSort _ _
  · exact (List.perm_insertionSort (· ≤ ·) _).nodup_iff.mpr
      (jsDedup_nodup _)
  · exact List.sorted_insertionSort _ _

/-! ## Claim C6 -/

/-- C6: `isWsl` returns true exactly when the platform is `"linux"` and
the kernel version file content contains `"microsoft"` or `"wsl"`
case-insensitively; on every non-Linux platform it is false regardless
of the file, and it is false when the file cannot be read (`none`). -/
theorem claim6_theorem (platform : List Char)
    (versionFile : Option (List Char)) :
    isWslM platform versionFile =
      (decide (platform = "linux".toList) &&
        match versionFile with
        | none => false
        | some v =>
          includesL "microsoft".toList (v.map Char.toLower) ||
            includesL "wsl".toList (v.map Char.toLower)) := by
  unfold isWslM
  by_cases hp : platform = "linux".toList
  · cases versionFile <;> simp [hp]
  · cases versionFile <;> simp [hp]

/-! ## Claim C7 -/

theorem dropLit_matchesAt {p l r : List Char} (h : dropLit p l = some r) :
    matchesAt p l = true := by
  induction p generalizing l with
  | nil => rfl
  | cons c t ih =>
    cases l with
    | nil => simp [dropLit] at h
    | cons x xs =>
      simp only [dropLit] at h
      split at h
      · next hxc =>
        simp only [matchesAt, Bool.and_eq_true, decide_eq_true_eq]
        exact ⟨hxc.symm, ih h⟩
      · exact absurd h (by simp)

theorem scanNs_top_some {l : List Char} {v : List Char}
    (h : nsMarkAt l = some v) : scanNs true l = some v := by
  cases l with
  | nil => simp [scanNs, h]
  | cons c t => simp [scanNs, h]

theorem scanNs_some_sfx :
    ∀ (b : Bool) (l : List Char) (v : List Char), scanNs b l = some v →
      ∃ s, s <:+ l ∧ nsMarkAt s = some v := by
  intro b l
  induction l generalizing b with
  | nil =>
    intro v h
    simp only [scanNs] at h
    split at h
    · exact ⟨[], List.suffix_refl [], h⟩
    · exact absurd h (by simp)
  | cons c t ih =>
    intro v h
    simp only [scanNs] at h
    split at h
    · cases hm : nsMarkAt (c :: t) with
      | some w =>
        rw [hm] at h
        simp only [Option.some.injEq] at h
        exact ⟨c :: t, List.suffix_refl _, by rw [hm, h]⟩
      | none =>
        rw [hm] at h
        obtain ⟨s, hs, hn⟩ := ih _ _ h
        exact ⟨s, hs.trans (List.suffix_cons c t), hn⟩
    · obtain ⟨s, hs, hn⟩ := ih _ _ h
      exact ⟨s, hs.trans (List.suffix_cons c t), hn⟩

/-- C7: `getWslHostIp` extracts the IPv4 value following a
line-initial `nameserver` keyword (for content of the form
`"nameserver <ip>\n<rest>"` it returns exactly `<ip>`), returns `none`
when the resolver file cannot be read, and returns `none` when the
content contains no `nameserver` occurrence at all. -/
theorem claim7_theorem :
    (∀ ip rest, ip ≠ [] → (∀ c ∈ ip, isIpChar c = true) →
      getWslHostIpM
        (some ("nameserver ".toList ++ (ip ++ ('\n' :: rest)))) = some ip) ∧
    getWslHostIpM none = none ∧
    (∀ content, includesL "nameserver".toList content = false →
      getWslHostIpM (some content) = none) := by
  refine ⟨?_, rfl, ?_⟩
  · intro ip rest hne hip
    obtain ⟨i0, ip', rfl⟩ := List.exists_cons_of_ne_nil hne
    have h0 : isIpChar i0 = true := hip i0 (by simp)
    have hs1 : isSpaceJs ' ' = true := by decide
    have hiprun : takeW isIpChar (i0 :: (ip' ++ '\n' :: rest)) =
        i0 :: ip' :=
      takeW_append_run hip
        (by intro c hc; simp at hc; subst hc; decide)
    have hsp : takeW isSpaceJs (' ' :: i0 :: (ip' ++ '\n' :: rest)) =
        [' '] := by
      simp [takeW, hs1, ipchar_not_space h0]
    have hdw : dropW isSpaceJs (' ' :: i0 :: (ip' ++ '\n' :: rest)) =
        i0 :: (ip' ++ '\n' :: rest) := by
      simp [dropW, hs1, ipchar_not_space h0]
    have hm : nsMarkAt
        ("nameserver ".toList ++ ((i0 :: ip') ++ ('\n' :: rest))) =
        some (i0 :: ip') := by
      show nsMarkAt
        ("nameserver".toList ++ (' ' :: i0 :: (ip' ++ '\n' :: rest))) =
        some (i0 :: ip')
      unfold nsMarkAt
      generalize "nameserver".toList = lit
      simp [dropLit_append, takeW, dropW, hs1, ipchar_not_space h0, hiprun]
    exact scanNs_top_some hm
  · intro content h
    cases hs : getWslHostIpM (some content) with
    | none => rfl
    | some v =>
      exfalso
      obtain ⟨s, hsf, hm⟩ :=
        scanNs_some_sfx true content v (by simpa [getWslHostIpM] using hs)
      have hinc : includesL "nameserver".toList content = true := by
        unfold nsMarkAt at hm
        cases hdl : dropLit "nameserver".toList s with
        | none =>
          rw [hdl] at hm
          exact absurd hm (by simp)
        | some r => exact includesL_of_sfx hsf (dropLit_matchesAt hdl)
      rw [hinc] at h
      exact absurd h (by simp)

/-- C7, witness: the spec's own samples — `"nameserver 192.168.1.1\n"`
yields `"192.168.1.1"`, and content with no nameserver line yields
`none`. -/
theorem claim7_witness :
    getWslHostIpM (some "nameserver 192.168.1.1\n".toList) =
      some "192.168.1.1".toList ∧
    getWslHostIpM (some "options timeout:1".toList) = none :=
  ⟨claim7_theorem.1 "192.168.1.1".toList [] (by decide) (by decide),
   claim7_theorem.2.2 "options timeout:1".toList (by decide)⟩

/-! ## Claim C9 -/

/-- C9: the port-tool availability cache. On a Linux strategy instance
with the cache unset, `detectAvailablePortCommand` probes the tools in
the order lsof, ss, netstat up to (and including) the first available
one, memoizes exactly the first available tool, marks the cache checked,
and a second call probes nothing and leaves the state (and hence the
choice) unchanged; any call with the cache already checked probes
nothing; on macOS detection is skipped entirely and
`getPortListCommand` always builds the lsof command, whatever the
cached tool. -/
theorem claim9_theorem (which : PortTool → Bool) (st : UnixStrategyState)
    (pid : Nat) :
    (st.portCommandChecked = true →
      detectAvailablePortCommand which st = (st, [])) ∧
    (st.platform = .darwin →
      detectAvailablePortCommand which st = (st, []) ∧
      ∀ avail, getPortListCommandStr pid "darwin".toList avail =
        lsofPortCmd (Nat.toDigits 10 pid)) ∧
    (st.platform = .linux → st.portCommandChecked = false →
      st.availablePortCommand = none →
      (detectAvailablePortCommand which st).2 =
        ([PortTool.lsof, .ss, .netstat].takeWhile fun t => !which t) ++
          (match [PortTool.lsof, .ss, .netstat].find? which with
           | some t => [t]
           | none => []) ∧
      (detectAvailablePortCommand which st).1.availablePortCommand =
        [PortTool.lsof, .ss, .netstat].find? which ∧
      (detectAvailablePortCommand which st).1.portCommandChecked = true ∧
      detectAvailablePortCommand which
          (detectAvailablePortCommand which st).1 =
        ((detectAvailablePortCommand which st).1, [])) := by
  refine ⟨?_, ?_, ?_⟩
  · intro h
    simp [detectAvailablePortCommand, h]
  · intro h
    exact ⟨by simp [detectAvailablePortCommand, h], fun avail => rfl⟩
  · intro hplat hchk hav
    cases h1 : which .lsof <;> cases h2 : which .ss <;>
      cases h3 : which .netstat <;>
      simp [detectAvailablePortCommand, toolLoop, hplat, hchk, hav, h1, h2,
        h3, List.find?]

/-- C9, witness: the theorem exercised at concrete states — a checked
instance probes nothing, macOS always builds the lsof command, and a
fresh Linux instance (where only ss exists) memoizes ss. -/
theorem claim9_witness :
    detectAvailablePortCommand (fun t => t == PortTool.ss)
      ⟨.linux, some .netstat, true⟩ = (⟨.linux, some .netstat, true⟩, []) ∧
    (∀ avail, getPortListCommandStr 42 "darwin".toList avail =
      lsofPortCmd (Nat.toDigits 10 42)) ∧
    (detectAvailablePortCommand (fun t => t == PortTool.ss)
        ⟨.linux, none, false⟩).1.availablePortCommand =
      [PortTool.lsof, .ss, .netstat].find? (fun t => t == PortTool.ss) :=
  ⟨(claim9_theorem (fun t => t == PortTool.ss)
      ⟨.linux, some .netstat, true⟩ 42).1 rfl,
   ((claim9_theorem (fun t => t == PortTool.ss)
      (⟨.darwin, none, false⟩ : UnixStrategyState) 42).2.1 rfl).2,
   ((claim9_theorem (fun t => t == PortTool.ss)
      ⟨.linux, none, false⟩ 42).2.2 rfl rfl rfl).2.1⟩

/-! ## Claims C5 and C8: probe-loop lemmas -/

theorem probeLoop_mem (env : AmbEnv) (tok : List Char) :
    ∀ (ports : List Nat), ∀ hp ∈ (probeLoop env tok ports).2,
      hp.1 = loopback ∨
        (env.isWsl = true ∧ env.wslHostIp = some hp.1 ∧
          env.verify loopback hp.2 tok = false) := by
  intro ports
  induction ports with
  | nil => intro hp h; simp [probeLoop] at h
  | cons p rest ih =>
    intro hp h
    simp only [probeLoop] at h
    by_cases h1 : env.verify loopback p tok = true
    · rw [if_pos h1] at h
      simp only [List.mem_singleton] at h
      exact Or.inl (by rw [h])
    · have h1f : env.verify loopback p tok = false := by simpa using h1
      rw [if_neg h1] at h
      by_cases h2 : env.isWsl = true
      · rw [if_pos h2] at h
        cases hip : env.wslHostIp with
        | none =>
          simp only [hip] at h
          rcases List.mem_cons.mp h with rfl | h
          · exact Or.inl rfl
          · rcases ih hp h with h5 | ⟨ha, hb, hc⟩
            · exact Or.inl h5
            · exact Or.inr ⟨ha, hip ▸ hb, hc⟩
        | some ip =>
          simp only [hip] at h
          by_cases h3 : ip ≠ loopback
          · rw [if_pos h3] at h
            by_cases h4 : env.verify ip p tok = true
            · rw [if_pos h4] at h
              rcases List.mem_cons.mp h with rfl | h
              · exact Or.inl rfl
              · simp only [List.mem_singleton] at h
                subst h
                exact Or.inr ⟨h2, rfl, h1f⟩
            · rw [if_neg h4] at h
              rcases List.mem_cons.mp h with rfl | h
              · exact Or.inl rfl
              · rcases List.mem_cons.mp h with rfl | h
                · exact Or.inr ⟨h2, rfl, h1f⟩
                · rcases ih hp h with h5 | ⟨ha, hb, hc⟩
                  · exact Or.inl h5
                  · exact Or.inr ⟨ha, hip ▸ hb, hc⟩
          · rw [if_neg h3] at h
            rcases List.mem_cons.mp h with rfl | h
            · exact Or.inl rfl
            · rcases ih hp h with h5 | ⟨ha, hb, hc⟩
              · exact Or.inl h5
              · exact Or.inr ⟨ha, hip ▸ hb, hc⟩
      · rw [if_neg h2] at h
        rcases List.mem_cons.mp h with rfl | h
        · exact Or.inl rfl
        · exact ih hp h

theorem probeLoop_order (env : AmbEnv) (tok : List Char) :
    ∀ (ports : List Nat) (pre : List (List Char × Nat)) (h : List Char)
      (q : Nat) (post : List (List Char × Nat)),
      (probeLoop env tok ports).2 = pre ++ (h, q) :: post →
      h ≠ loopback → (loopback, q) ∈ pre := by
  intro ports
  induction ports with
  | nil =>
    intro pre h q post heq _
    simp only [probeLoop] at heq
    exact absurd heq.symm (by simp)
  | cons p rest ih =>
    intro pre h q post heq hne
    simp only [probeLoop] at heq
    have hstep : ∀ (pre2 : List (List Char × Nat)),
        (loopback, p) :: (probeLoop env tok rest).2 =
          pre2 ++ (h, q) :: post → (loopback, q) ∈ pre2 := by
      intro pre2 heq2
      cases pre2 with
      | nil =>
        simp only [List.nil_append, List.cons.injEq, Prod.mk.injEq] at heq2
        exact absurd heq2.1.1.symm hne
      | cons a pre' =>
        simp only [List.cons_append, List.cons.injEq] at heq2
        exact List.mem_cons_of_mem _ (ih pre' h q post heq2.2 hne)
    by_cases h1 : env.verify loopback p tok = true
    · rw [if_pos h1] at heq
      cases pre with
      | nil =>
        simp only [List.nil_append, List.cons.injEq, Prod.mk.injEq] at heq
        exact absurd heq.1.1.symm hne
      | cons a pre' =>
        simp only [List.cons_append, List.cons.injEq] at heq
        exact absurd heq.2.symm (by simp)
    · rw [if_neg h1] at heq
      by_cases h2 : env.isWsl = true
      · rw [if_pos h2] at heq
        cases hip : env.wslHostIp with
        | none =>
          simp only [hip] at heq
          exact hstep pre heq
        | some ip =>
          simp only [hip] at heq
          by_cases h3 : ip ≠ loopback
          · rw [if_pos h3] at heq
            by_cases h4 : env.verify ip p tok = true
            · rw [if_pos h4] at heq
              cases pre with
              | nil =>
                simp only [List.nil_append, List.cons.injEq,
                  Prod.mk.injEq] at heq
                exact absurd heq.1.1.symm hne
              | cons a pre' =>
                cases pre' with
                | nil =>
                  simp only [List.cons_append, List.nil_append,
                    List.cons.injEq, Prod.mk.injEq] at heq
                  obtain ⟨ha, ⟨hih, hpq⟩, _⟩ := heq
                  subst hpq
                  rw [← ha]
                  simp
                | cons b pre'' =>
                  simp only [List.cons_append, List.cons.injEq] at heq
                  exact absurd heq.2.2.symm (by simp)
            · rw [if_neg h4] at heq
              cases pre with
              | nil =>
                simp only [List.nil_append, List.cons.injEq,
                  Prod.mk.injEq] at heq
                exact absurd heq.1.1.symm hne
              | cons a pre' =>
                simp only [List.cons_append, List.cons.injEq] at heq
                cases pre' with
                | nil =>
                  simp only [List.nil_append, List.cons.injEq,
                    Prod.mk.injEq] at heq
                  obtain ⟨ha, ⟨hih, hpq⟩, _⟩ := heq
                  subst hpq
                  rw [← ha]
                  simp
                | cons b pre'' =>
                  simp only [List.nil_append, List.cons_append,
                    List.cons.injEq] at heq
                  obtain ⟨ha, hb, htr⟩ := heq
                  exact List.mem_cons_of_mem _
                    (List.mem_cons_of_mem _ (ih pre'' h q post htr hne))
          · rw [if_neg h3] at heq; exact hstep pre heq
      · rw [if_neg h2] at heq; exact hstep pre heq

theorem probeLoop_sound (env : AmbEnv) (tok : List Char) :
    ∀ (ports : List Nat) (r : LanguageServerInfo),
      (probeLoop env tok ports).1 = some r →
      ∃ host, (host = loopback ∨ env.wslHostIp = some host) ∧
        env.verify host r.port r.csrfToken = true := by
  intro ports
  induction ports with
  | nil => intro r h; simp [probeLoop] at h
  | cons p rest ih =>
    intro r h
    simp only [probeLoop] at h
    by_cases h1 : env.verify loopback p tok = true
    · rw [if_pos h1] at h
      have hr : (⟨p, tok⟩ : LanguageServerInfo) = r := Option.some.inj h
      subst hr
      exact ⟨loopback, Or.inl rfl, h1⟩
    · rw [if_neg h1] at h
      by_cases h2 : env.isWsl = true
      · rw [if_pos h2] at h
        cases hip : env.wslHostIp with
        | none =>
          simp only [hip] at h
          obtain ⟨host, hor, hv⟩ := ih r h
          exact ⟨host, hor.imp id (fun x => hip ▸ x), hv⟩
        | some ip =>
          simp only [hip] at h
          by_cases h3 : ip ≠ loopback
          · rw [if_pos h3] at h
            by_cases h4 : env.verify ip p tok = true
            · rw [if_pos h4] at h
              have hr : (⟨p, tok⟩ : LanguageServerInfo) = r :=
                Option.some.inj h
              subst hr
              exact ⟨ip, Or.inr rfl, h4⟩
            · rw [if_neg h4] at h
              obtain ⟨host, hor, hv⟩ := ih r h
              exact ⟨host, hor.imp id (fun x => hip ▸ x), hv⟩
          · rw [if_neg h3] at h
            obtain ⟨host, hor, hv⟩ := ih r h
            exact ⟨host, hor.imp id (fun x => hip ▸ x), hv⟩
      · rw [if_neg h2] at h; exact ih r h

/-! ## Claim C5 -/

/-- C5: in `AmbientDiscovery.probeAndEstablish` (instrumented with its
ordered probe trace), for every port the loopback address is always
probed first: any non-loopback probe in the trace is a probe of the WSL
bridge address (`wslHostIp`), happens only when `isWsl()` is true and
the loopback probe for that port returned false, and is preceded in the
trace by the loopback probe of the same port; outside WSL every probe
in the trace targets loopback. -/
theorem claim5_theorem (env : AmbEnv) (meta : ProcessInfo) :
    (env.isWsl = false →
      ∀ hp ∈ (probeAndEstablish env meta).2, hp.1 = loopback) ∧
    (∀ hp ∈ (probeAndEstablish env meta).2, hp.1 ≠ loopback →
      env.isWsl = true ∧ env.verify loopback hp.2 meta.csrfToken = false ∧
        env.wslHostIp = some hp.1) ∧
    (∀ pre h q post,
      (probeAndEstablish env meta).2 = pre ++ (h, q) :: post →
      h ≠ loopback → (loopback, q) ∈ pre) := by
  have htr : (probeAndEstablish env meta).2 = [] ∨
      (probeAndEstablish env meta).2 =
        (probeLoop env meta.csrfToken (lookupPorts env meta.pid)).2 := by
    by_cases hpe : (lookupPorts env meta.pid).isEmpty = true
    · exact Or.inl (by simp [probeAndEstablish, hpe])
    · exact Or.inr (by simp [probeAndEstablish, hpe])
  rcases htr with htr | htr <;> rw [htr]
  · refine ⟨fun _ hp hmem => absurd hmem (List.not_mem_nil hp),
      fun hp hmem => absurd hmem (List.not_mem_nil hp),
      fun pre h q post heq _ => absurd heq.symm (by simp)⟩
  · refine ⟨?_, ?_, ?_⟩
    · intro hw hp hmem
      rcases probeLoop_mem env meta.csrfToken _ hp hmem with h5 | h5
      · exact h5
      · rw [hw] at h5
        exact absurd h5.1 (by simp)
    · intro hp hmem hne
      rcases probeLoop_mem env meta.csrfToken _ hp hmem with h5 | h5
      · exact absurd h5 hne
      · exact ⟨h5.1, h5.2.2, h5.2.1⟩
    · exact fun pre h q post heq hne =>
        probeLoop_order env meta.csrfToken _ pre h q post heq hne

/-- C5, witness: in the concrete WSL environment `envBridge` the trace
for port 7 is loopback first, then the bridge; applying the ordering
part of the theorem shows the loopback probe precedes the bridge
probe. -/
theorem claim5_witness : (loopback, 7) ∈ [(loopback, 7)] :=
  (claim5_theorem envBridge ⟨9, 1, 7, "t".toList, none⟩).2.2
    [(loopback, 7)] bridgeIp 7 [] (by decide) (by decide)

/-! ## Claim C8 -/

theorem probeAndEstablish_sound (env : AmbEnv) (meta : ProcessInfo)
    (r : LanguageServerInfo) (h : (probeAndEstablish env meta).1 = some r) :
    ∃ host, (host = loopback ∨ env.wslHostIp = some host) ∧
      env.verify host r.port r.csrfToken = true := by
  by_cases hpe : (lookupPorts env meta.pid).isEmpty = true
  · simp [probeAndEstablish, hpe] at h
  · simp only [probeAndEstablish, hpe, if_false] at h
    exact probeLoop_sound env meta.csrfToken _ r h

theorem tryCandidates_sound (env : AmbEnv) :
    ∀ (cs : List ProcessInfo) (r : LanguageServerInfo),
      tryCandidates env cs = some r →
      ∃ host, (host = loopback ∨ env.wslHostIp = some host) ∧
        env.verify host r.port r.csrfToken = true := by
  intro cs
  induction cs with
  | nil => intro r h; simp [tryCandidates] at h
  | cons c rest ih =>
    intro r h
    simp only [tryCandidates] at h
    cases hpe : (probeAndEstablish env c).1 with
    | some r2 =>
      rw [hpe] at h
      obtain rfl : r2 = r := Option.some.inj h
      exact probeAndEstablish_sound env c r2 hpe
    | none =>
      rw [hpe] at h
      exact ih r h

/-- C8: `AmbientDiscovery.executeDiscovery` never propagates a failure:
a failed (thrown) process-listing execution is caught and yields the
empty candidate list and a `none` result; a failed port-listing
execution is caught and yields the empty port list for that pid; and
whenever `executeDiscovery` returns a result at all, that result was
verified — some probed host (loopback or the WSL bridge address)
accepted its port and token. -/
theorem claim8_theorem (env : AmbEnv) :
    (env.signatureOutput = .error () →
      locateBySignature env = [] ∧ executeDiscovery env = none) ∧
    (∀ pid, env.portOutput pid = .error () → lookupPorts env pid = []) ∧
    (∀ r, executeDiscovery env = some r →
      ∃ host, (host = loopback ∨ env.wslHostIp = some host) ∧
        env.verify host r.port r.csrfToken = true) := by
  refine ⟨?_, ?_, ?_⟩
  · intro h
    have hl : locateBySignature env = [] := by simp [locateBySignature, h]
    exact ⟨hl, by simp [executeDiscovery, hl]⟩
  · intro pid h
    simp [lookupPorts, h]
  · intro r h
    by_cases hc : (locateBySignature env).isEmpty = true
    · simp [executeDiscovery, hc] at h
    · simp only [executeDiscovery, hc, if_false] at h
      exact tryCandidates_sound env _ r h

/-- C8, witness: with every shell execution throwing (`envFail`) the
candidate list, the result and the port list are all benign defaults;
and in `envLoop`, where discovery succeeds, the theorem produces the
verifying host. -/
theorem claim8_witness :
    (locateBySignature envFail = [] ∧ executeDiscovery envFail = none) ∧
    lookupPorts envFail 9 = [] ∧
    (∃ host, (host = loopback ∨ envLoop.wslHostIp = some host) ∧
      envLoop.verify host 7 "t".toList = true) :=
  ⟨(claim8_theorem envFail).1 rfl, (claim8_theorem envFail).2.1 9 rfl,
   (claim8_theorem envLoop).2.2 ⟨7, "t".toList⟩ (by decide)⟩

end AGPanel
